import Mathlib

/-!
Formal model of the `lostnfound` path-tracing engine (shallow embedding).

Scalars are modelled as exact rationals (`ℚ`); the C++ code uses `float`,
so every numeric statement is about the ideal real-number algorithm the
code implements.  Geometry headers (`vec3.h`, `ray.h`, `intersect.h`,
`color.h`, `scene.h`, `bvh.h`) are not part of the provided sources; the
corresponding definitions below are modelled from the specification and
are marked as such.  Everything in `trace.h`, `main.cpp` and
`default_materials.h` is translated directly from the source.
-/

namespace LNF

/-- Modelled from the spec: `vec3.h` is not under `src/`. A 3-vector with
rational components. -/
structure Vec where
  x : ℚ
  y : ℚ
  z : ℚ
  deriving DecidableEq, Repr

/-- Componentwise vector addition. -/
def Vec.add (a b : Vec) : Vec := ⟨a.x + b.x, a.y + b.y, a.z + b.z⟩

instance : Add Vec := ⟨Vec.add⟩

/-- Scalar multiplication of a vector. -/
def Vec.smul (a : Vec) (s : ℚ) : Vec := ⟨a.x * s, a.y * s, a.z * s⟩

/-- Dot product (`operator*` of `vec3.h`). -/
def Vec.dot (a b : Vec) : ℚ := a.x * b.x + a.y * b.y + a.z * b.z

instance : Inhabited Vec := ⟨⟨0, 0, 0⟩⟩

/-- `fabs` on the rational scalars, written out so that it evaluates by
kernel reduction (it agrees with `|·|`, see `qabs_eq_abs`). -/
def qabs (q : ℚ) : ℚ := if q < 0 then -q else q

/-- Modelled from the spec: `color.h` is not under `src/`. An RGB radiance
triple. -/
structure Color where
  red : ℚ
  green : ℚ
  blue : ℚ
  deriving DecidableEq, Repr

/-- Componentwise color addition. -/
def Color.add (a b : Color) : Color := ⟨a.red + b.red, a.green + b.green, a.blue + b.blue⟩

instance : Add Color := ⟨Color.add⟩

/-- Componentwise color modulation (`Color * Color`). -/
def Color.mul (a b : Color) : Color := ⟨a.red * b.red, a.green * b.green, a.blue * b.blue⟩

instance : Mul Color := ⟨Color.mul⟩

/-- Scaling a color by a scalar (`Color * float`). -/
def Color.scale (a : Color) (s : ℚ) : Color := ⟨a.red * s, a.green * s, a.blue * s⟩

/-- The all-zero color `Color()`. -/
def Color.black : Color := ⟨0, 0, 0⟩

/-- Modelled from the spec: `color.h` is not under `src/`; the spec's
early-termination rule tests whether the attenuation is "(near-)zero". -/
def Color.isBlack (c : Color) : Bool := qabs c.red + qabs c.green + qabs c.blue < 1 / 10000

/-- Modelled from the spec: `ray.h` is not under `src/`. A ray is an origin
point plus a direction; `position t = origin + t·direction`. -/
structure Ray where
  origin : Vec
  direction : Vec
  deriving DecidableEq, Repr

/-- `Ray::position(t) = origin + t·direction` (spec §3). -/
def Ray.position (r : Ray) (t : ℚ) : Vec := r.origin + r.direction.smul t

/-- Modelled from the spec: `uv.h` is not under `src/`. Local 2D surface
coordinates. -/
structure Uv where
  u : ℚ
  v : ℚ
  deriving DecidableEq, Repr

/-- Modelled from the spec: `vec3.h`'s `Axis` is not under `src/`.  A rigid
local↔world transform is kept abstract as its two actions used by the
tracer: `transformFrom` maps a local point to world space and `rotateFrom`
maps a local direction to world space. -/
structure Axis where
  transformFrom : Vec → Vec
  rotateFrom : Vec → Vec

/-- The identity axis (world = local). -/
def Axis.id : Axis := ⟨fun p => p, fun d => d⟩

instance : Inhabited Axis := ⟨Axis.id⟩

/-- Modelled from the spec: `intersect.h` is not under `src/`.  The hit
record fields used by the tracer and the scenes.  The C++ record also has
an "is valid" state with a `bool` conversion; an in-flight query result is
modelled as `Option Intersect`, which is `none` exactly when the record
would compare falsy.  The owning primitive-instance pointer `m_pNode` is
modelled as an optional index into the scene's instance registry. -/
structure Intersect where
  fPositionOnRay : ℚ
  position : Vec
  normal : Vec
  uv : Uv
  priRay : Ray
  viewRay : Ray
  bInside : Bool
  pNode : Option Nat
  axis : Axis

/-- `ScatteredRay` (spec §3 / `material.h`, not under `src/`): outgoing ray
in the hit's local frame, attenuation color and emitted color. -/
structure ScatteredRay where
  ray : Ray
  color : Color
  emitted : Color

/-- A primitive instance as used by the tracer and the scenes: its
ray-intersection test (returning the filled hit record on success), the
hit-completion step (`PrimitiveInstance::intersect`), and its material's
`scatter` function.  The material's random generator argument is absorbed
into the function, so every theorem quantifies over all random draws. -/
structure PrimitiveInstance where
  hit : Ray → Option Intersect
  complete : Intersect → Intersect
  material : Intersect → ScatteredRay

/-- The abstract `Scene` interface consumed by the tracer (`scene.h` is not
under `src/`): a closest-hit query, a miss/background color, and the
registry resolving a hit record's instance pointer. -/
structure SceneM where
  hit : Ray → Option Intersect
  missColor : Ray → Color
  nodes : Nat → PrimitiveInstance

/-- The loop body of `SimpleScene::hit` (main.cpp lines 76-87): if the
object reports a hit and either no hit is recorded yet or the new hit has
a strictly smaller position-on-ray, the new hit replaces the best one. -/
def hitUpd (ray : Ray) (best : Option Intersect) (p : PrimitiveInstance) : Option Intersect :=
  match p.hit ray with
  | none => best
  | some nh =>
    match best with
    | none => some nh
    | some b => if nh.fPositionOnRay < b.fPositionOnRay then some nh else some b

/-- Folding the `SimpleScene::hit` loop body over a list of objects,
starting from the caller's hit record. -/
def sceneFold (ray : Ray) (objs : List PrimitiveInstance) (init : Option Intersect) :
    Option Intersect :=
  objs.foldl (hitUpd ray) init

/-- `SimpleScene::hit` (main.cpp lines 76-87): linear scan over all
objects, starting from a fresh (invalid) hit record. -/
def simpleHit (objs : List PrimitiveInstance) (ray : Ray) : Option Intersect :=
  sceneFold ray objs none

/-- `SimpleScene::backgroundColor` (main.cpp lines 93-95). -/
def simpleBackgroundColor : Color := ⟨1/5, 1/5, 1/5⟩

/-- The hit results reported by the objects of a list for a given ray. -/
def hitsOf (objs : List PrimitiveInstance) (ray : Ray) : List Intersect :=
  objs.filterMap (fun p => p.hit ray)

/-- Modelled from the spec: `bvh.h` is not under `src/`.  A BVH node holds
an axis-aligned bounding box — kept abstract as its ray/slab intersection
test `boxHit` —, the leaf's list of non-owning primitive-instance
pointers, and up to two exclusively-owned children. -/
inductive BvhNode where
  | mk (boxHit : Ray → Bool) (primitives : List PrimitiveInstance)
       (left : Option BvhNode) (right : Option BvhNode)

/-- The node's bounding-box test (`BvhNode::intersect(ray)`). -/
def BvhNode.boxTest : BvhNode → Ray → Bool
  | .mk b _ _ _, ray => b ray

/-- All primitive instances stored in a subtree, in the order
`SimpleSceneBvh::checkBvhHit` visits them (own leaf list, then the left
subtree, then the right subtree). -/
def BvhNode.allPrims : BvhNode → List PrimitiveInstance
  | .mk _ prims l r =>
      prims
        ++ (match l with | some c => c.allPrims | none => [])
        ++ (match r with | some c => c.allPrims | none => [])

/-- `SimpleSceneBvh::checkBvhHit` (main.cpp lines 145-169): fold the leaf
primitives into the running best hit, then recurse into each non-null
child whose bounding box the query ray intersects; a child whose box does
not intersect the ray is pruned. -/
def checkBvhHit (ray : Ray) : BvhNode → Option Intersect → Option Intersect
  | .mk _ prims l r, best =>
    let b1 := sceneFold ray prims best
    let b2 := match l with
      | some c => if c.boxTest ray then checkBvhHit ray c b1 else b1
      | none => b1
    match r with
      | some c => if c.boxTest ray then checkBvhHit ray c b2 else b2
      | none => b2

/-- `SimpleSceneBvh::hit` (main.cpp lines 129-131): BVH query from the
root, starting with a fresh (invalid) hit record. -/
def bvhHit (root : BvhNode) (ray : Ray) : Option Intersect :=
  checkBvhHit ray root none

/-- A subtree contains some primitive that reports a hit for the ray. -/
def BvhAnyHit (ray : Ray) (n : BvhNode) : Prop :=
  ∃ p ∈ n.allPrims, (p.hit ray).isSome

/-- Modelled from the spec: well-formedness of the built BVH (`buildBvhRoot`
in `bvh.h` is not under `src/`).  Spec §4.1: each node's box is the union
of its children's extents and the slab test is conservative, so a child
subtree containing a primitive the ray hits always passes its box test
("a node with no box intersection is pruned entirely ... it must never
change which hit is reported"). -/
inductive BvhSound (ray : Ray) : BvhNode → Prop where
  | intro (box : Ray → Bool) (prims : List PrimitiveInstance)
      (l r : Option BvhNode)
      (hl : ∀ c, l = some c → BvhAnyHit ray c → c.boxTest ray = true)
      (hr : ∀ c, r = some c → BvhAnyHit ray c → c.boxTest ray = true)
      (sl : ∀ c, l = some c → BvhSound ray c)
      (sr : ∀ c, r = some c → BvhSound ray c) :
      BvhSound ray (.mk box prims l r)

/-- `Tracer::traceRay` (trace.h lines 45-81), with the tracer's mutable
counters made explicit: `depth` is `m_iTraceDepth` on entry and `dm` is
`m_iTraceDepthMax` on entry; the function returns the traced color
together with the counters' values on exit.  The body increments the
depth, queries the scene; on a hit with a non-null node pointer it
completes the intercept, scatters, and — when the incremented depth is
still below the trace limit and the attenuation is not black — offsets
the scattered ray by `1e-4` along its direction, transforms it to world
space through the hit's axis, recurses, and blends
`emitted + attenuation * traced`; otherwise it returns the emission
alone.  A miss (or a null node pointer) yields the scene's miss color. -/
def traceRay (s : SceneM) (limit : Nat) (ray : Ray) (depth dm : Nat) : Color × Nat × Nat :=
  match s.hit ray with
  | some h =>
    match h.pNode with
    | some nid =>
      let node := s.nodes nid
      let h2 := node.complete h
      let sc := node.material h2
      if hrec : depth + 1 < limit ∧ sc.color.isBlack = false then
        let world : Ray := ⟨h2.axis.transformFrom (sc.ray.position (1/10000)),
                            h2.axis.rotateFrom sc.ray.direction⟩
        let r := traceRay s limit world (depth + 1) (max (depth + 1) dm)
        (sc.emitted + sc.color * r.1, r.2.1, r.2.2)
      else
        (sc.emitted, depth + 1, max (depth + 1) dm)
    | none => (s.missColor ray, depth + 1, max (depth + 1) dm)
  | none => (s.missColor ray, depth + 1, max (depth + 1) dm)
termination_by limit - depth
decreasing_by omega

/-- `Tracer::trace` (trace.h lines 35-38): reset `m_iTraceDepth` to zero
and trace; `m_iTraceDepthMax` (`dm`) is carried over from the previous
rays traced by the same `Tracer`. -/
def Tracer.trace (s : SceneM) (limit : Nat) (dm : Nat) (ray : Ray) : Color × Nat × Nat :=
  traceRay s limit ray 0 dm

/-- `Light::scatter` (default_materials.h lines 91-94): pass the incoming
ray through unchanged, zero attenuation, and emit the base color scaled by
the absolute dot product of the surface normal and the incoming ray
direction (for unit vectors, |cos| of the angle between them). -/
def lightScatter (base : Color) (h : Intersect) : ScatteredRay :=
  ⟨h.priRay, Color.black, base.scale (qabs (Vec.dot h.normal h.priRay.direction))⟩

/-- Truncation toward zero, the semantics of the C++ `(int)` cast. -/
def cTrunc (q : ℚ) : ℤ := if 0 ≤ q then ⌊q⌋ else ⌈q⌉

/-- `DiffuseCheckered::color` (default_materials.h lines 49-52):
`c = ((int)(u·N) + (int)(v·N)) % 2` with the C++ truncated `%`, then
`colorA * c + colorB * (1 - c)`. -/
def diffuseCheckeredColor (colorA colorB : Color) (blockSize : ℤ) (h : Intersect) : Color :=
  let c : ℚ := ((cTrunc (h.uv.u * blockSize) + cTrunc (h.uv.v * blockSize)).tmod 2 : ℤ)
  colorA.scale c + colorB.scale (1 - c)

/-- The per-pixel sampling loop of `renderImage` (trace.h lines 109-121),
with the stateful sample stream made explicit: `dm k` is the tracer's
`traceDepthMax()` and `mat k` the statistic's `maturity()` observed right
after sample `k` was pushed.  `k` is the loop counter and `fuel` the
number of remaining loop iterations (the loop is entered with
`fuel = N`); the function returns the number of samples pushed.  After
pushing sample `k` the loop breaks early iff `k > 4` and
`k > traceDepthMax()` and the maturity is below the hard-coded `1e-6`
tolerance. -/
def pixelIter (N : Nat) (dm : Nat → Nat) (mat : Nat → ℚ) : Nat → Nat → Nat
  | k, 0 => k
  | k, fuel + 1 =>
    if k < N then
      if 4 < k ∧ dm k < k ∧ mat k < 1/1000000 then k + 1
      else pixelIter N dm mat (k + 1) fuel
    else k

/-- Number of samples `renderImage` pushes for one pixel, given the
configured maximum `N` (`_iRaysPerPixel`) and the observed depth-max and
maturity streams. -/
def sampleCount (N : Nat) (dm : Nat → Nat) (mat : Nat → ℚ) : Nat :=
  pixelIter N dm mat 0 N

/-- The central finite-difference gradient of a signed-distance function
(`marchedNormal`, trace.h lines 134-140, before the final `normalized()`
call).  Normalization divides by the Euclidean norm, which is not exactly
representable over `ℚ`; it is passed in abstractly as `nrm` wherever
`marchedNormal` is used, and the claims proved here do not depend on it. -/
def marchedGradient (sdf : Vec → ℚ) (p : Vec) : Vec :=
  let e : ℚ := 1/10000
  ⟨sdf (p + ⟨e, 0, 0⟩) - sdf (p + ⟨-e, 0, 0⟩),
   sdf (p + ⟨0, e, 0⟩) - sdf (p + ⟨0, -e, 0⟩),
   sdf (p + ⟨0, 0, e⟩) - sdf (p + ⟨0, 0, -e⟩)⟩

/-- Result of `marchedTrace`: the returned flag and the three out
parameters (`_intersect`, `_normal`, `_bInside`).  On a miss the C++
leaves `_normal` untouched; the model returns the zero vector there. -/
structure MarchResult where
  hit : Bool
  intersect : Vec
  normal : Vec
  inside : Bool
  deriving Repr

/-- The iteration of `marchedTrace` (trace.h lines 164-186), one fuel unit
per loop step; the C++ runs it with `n = 1000`.  Invariant threaded by the
caller: `dist = sdf pt`.  Order of checks per iteration: `|dist|` above
`MAX_DIST = 1000` reports a miss with the inside flag recomputed from the
sign of `dist`; `|dist| ≤ e = 1e-6` reports a hit at the current point;
otherwise the point advances by `dist * stepScale` along the ray
direction, and if the old and new distances' product is below `-e`
(surface crossing) the step scale is halved. -/
def marchLoop (nrm : Vec → Vec) (sdf : Vec → ℚ) (dir : Vec) (inside0 : Bool) :
    ℚ → Vec → ℚ → Nat → MarchResult
  | _, pt, _, 0 => ⟨false, pt, ⟨0, 0, 0⟩, inside0⟩
  | stepScale, pt, dist, fuel + 1 =>
    if 1000 < qabs dist then ⟨false, pt, ⟨0, 0, 0⟩, decide (dist < 0)⟩
    else if qabs dist ≤ 1/1000000 then ⟨true, pt, nrm (marchedGradient sdf pt), inside0⟩
    else
      let pt' := pt + dir.smul (dist * stepScale)
      let dist' := sdf pt'
      let stepScale' := if dist * dist' < -(1/1000000) then stepScale * (1/2) else stepScale
      marchLoop nrm sdf dir inside0 stepScale' pt' dist' fuel

/-- `marchedTrace` (trace.h lines 144-189): evaluate the signed distance at
the ray origin; a negative start marks the ray as inside and flips the
marching direction; then run the loop for at most 1000 iterations. -/
def marchedTrace (nrm : Vec → Vec) (sdf : Vec → ℚ) (ray : Ray) : MarchResult :=
  let d0 := sdf ray.origin
  marchLoop nrm sdf ray.direction (decide (d0 < 0)) (if d0 < 0 then -1 else 1)
    ray.origin d0 1000

instance : Inhabited PrimitiveInstance :=
  ⟨⟨fun _ => none, fun h => h, fun h => ⟨h.priRay, Color.black, Color.black⟩⟩⟩

/-- The scattered ray the tracer obtains at a hit: the hit record is first
completed by the owning instance (`pHitNode->intersect(hit)`), then passed
to the instance's material. -/
def scatterOf (s : SceneM) (nid : Nat) (h : Intersect) : ScatteredRay :=
  (s.nodes nid).material ((s.nodes nid).complete h)

/-- The outgoing ray the tracer recurses on: the scattered ray's origin is
moved by `1e-4` along its direction (self-intersection epsilon) and the ray
is transformed from the hit's local frame back to world space through the
hit's axis (trace.h lines 63-67). -/
def worldRay (s : SceneM) (nid : Nat) (h : Intersect) : Ray :=
  ⟨((s.nodes nid).complete h).axis.transformFrom ((scatterOf s nid h).ray.position (1/10000)),
   ((s.nodes nid).complete h).axis.rotateFrom (scatterOf s nid h).ray.direction⟩

/-- A `SimpleScene` (main.cpp) packaged as the abstract scene interface:
linear-scan hit query, constant background color, and the object list as
the instance registry. -/
def simpleSceneM (objs : List PrimitiveInstance) : SceneM :=
  ⟨simpleHit objs, fun _ => simpleBackgroundColor, fun i => objs.getD i default⟩

/-- A fixed ray used by concrete witness scenes. -/
def wRay0 : Ray := ⟨⟨0, 0, 0⟩, ⟨0, 0, 1⟩⟩

/-- A fixed valid hit record used by concrete witness scenes. -/
def wHit : Intersect := ⟨1, ⟨0, 0, 0⟩, ⟨0, 1, 0⟩, ⟨0, 0⟩, wRay0, wRay0, false, some 0, Axis.id⟩

/-- A concrete primitive instance that always reports `wHit`. -/
def wPrim : PrimitiveInstance :=
  ⟨fun _ => some wHit, fun h => h, fun h => ⟨h.priRay, Color.black, Color.black⟩⟩

/-- A one-leaf BVH over the single witness instance. -/
def wTree : BvhNode := .mk (fun _ => true) [wPrim] none none

/-- A concrete ray that hits the concrete scene `tScene` (origin x = 0). -/
def tRay1 : Ray := ⟨⟨0, 0, 0⟩, ⟨1, 0, 0⟩⟩

/-- A concrete ray that misses the concrete scene `tScene` (origin x = 5). -/
def tRay2 : Ray := ⟨⟨5, 0, 0⟩, ⟨1, 0, 0⟩⟩

/-- A concrete hit record whose owning instance is registry slot 0. -/
def tHit : Intersect := ⟨1, ⟨0, 0, 0⟩, ⟨0, 1, 0⟩, ⟨0, 0⟩, tRay1, tRay1, false, some 0, Axis.id⟩

/-- A concrete instance whose material scatters a fixed off-origin ray with
white (non-black) attenuation and no emission. -/
def tPrim : PrimitiveInstance :=
  ⟨fun _ => none, fun h => h, fun _ => ⟨⟨⟨1, 0, 0⟩, ⟨1, 0, 0⟩⟩, ⟨1, 1, 1⟩, Color.black⟩⟩

/-- A concrete scene: rays starting on the plane `x = 0` hit `tHit`, all
others miss.  The scattered world ray of a hit starts at `x = 1.0001`, so
the recursive trace call always misses: every hitting ray reaches trace
depth exactly 2. -/
def tScene : SceneM :=
  ⟨fun r => if r.origin.x = 0 then some tHit else none,
   fun _ => simpleBackgroundColor,
   fun _ => tPrim⟩

/-- A concrete hit record carrying a null owning-instance pointer. -/
def nHit : Intersect := ⟨1, ⟨0, 0, 0⟩, ⟨0, 1, 0⟩, ⟨0, 0⟩, wRay0, wRay0, false, none, Axis.id⟩

/-- A concrete scene that always reports `nHit` (null node pointer). -/
def nScene : SceneM :=
  ⟨fun _ => some nHit, fun _ => simpleBackgroundColor, fun _ => default⟩

/-- A concrete hit record whose normal and incoming direction coincide. -/
def lHit : Intersect :=
  ⟨1, ⟨0, 0, 0⟩, ⟨0, 1, 0⟩, ⟨0, 0⟩, ⟨⟨0, 0, 0⟩, ⟨0, 1, 0⟩⟩, wRay0, false, some 0, Axis.id⟩

/-- A concrete instance carrying a `Light` material of color (10,10,10). -/
def lightPrim : PrimitiveInstance :=
  ⟨fun _ => some lHit, fun h => h, lightScatter ⟨10, 10, 10⟩⟩

/-- A concrete scene whose only instance is the light. -/
def lScene : SceneM :=
  ⟨fun _ => some lHit, fun _ => simpleBackgroundColor, fun _ => lightPrim⟩

/-- A concrete hit record with a negative surface-UV coordinate. -/
def uvHit : Intersect :=
  ⟨1, ⟨0, 0, 0⟩, ⟨0, 1, 0⟩, ⟨-3/5, 0⟩, wRay0, wRay0, false, some 0, Axis.id⟩

/-- A concrete hit record with UV in the unit square. -/
def uvHitPos : Intersect :=
  ⟨1, ⟨0, 0, 0⟩, ⟨0, 1, 0⟩, ⟨1/2, 0⟩, wRay0, wRay0, false, some 0, Axis.id⟩

/-- A concrete hit record at `t = 1` owned by registry slot 0. -/
def cHitA : Intersect := ⟨1, ⟨0, 0, 0⟩, ⟨0, 1, 0⟩, ⟨0, 0⟩, wRay0, wRay0, false, some 0, Axis.id⟩

/-- A concrete hit record at the same `t = 1` owned by registry slot 1. -/
def cHitB : Intersect := ⟨1, ⟨0, 0, 0⟩, ⟨0, 1, 0⟩, ⟨0, 0⟩, wRay0, wRay0, false, some 1, Axis.id⟩

/-- A concrete instance that always reports `cHitA`. -/
def cPrimA : PrimitiveInstance :=
  ⟨fun _ => some cHitA, fun h => h, fun h => ⟨h.priRay, Color.black, Color.black⟩⟩

/-- A concrete instance that always reports `cHitB` (same `t` as `cHitA`). -/
def cPrimB : PrimitiveInstance :=
  ⟨fun _ => some cHitB, fun h => h, fun h => ⟨h.priRay, Color.black, Color.black⟩⟩

/-- A two-instance scene whose instances tie at the same position-on-ray. -/
def cObjs : List PrimitiveInstance := [cPrimA, cPrimB]

/-- A sound one-leaf BVH over exactly the two tying instances, holding them
in the opposite order to the scene's list (a leaf stores non-owning
pointers in whatever order the build produced; the box test accepts every
ray, so nothing is ever pruned). -/
def cTree : BvhNode := .mk (fun _ => true) [cPrimB, cPrimA] none none

/-! ### Helper lemmas about the closest-hit fold -/

theorem hitUpd_isSome (ray : Ray) (init : Option Intersect) (p : PrimitiveInstance) :
    (hitUpd ray init p).isSome = (init.isSome || (p.hit ray).isSome) := by
  unfold hitUpd
  cases p.hit ray <;> cases init <;> simp
  split <;> simp

theorem hitUpd_eq_some (ray : Ray) (init : Option Intersect) (p : PrimitiveInstance)
    (h : Intersect) (he : hitUpd ray init p = some h) :
    p.hit ray = some h ∨ init = some h := by
  cases hp : p.hit ray with
  | none =>
    simp only [hitUpd, hp] at he
    right; exact he
  | some nh =>
    cases init with
    | none =>
      simp only [hitUpd, hp] at he
      left; exact he
    | some b =>
      by_cases hlt : nh.fPositionOnRay < b.fPositionOnRay
      · simp only [hitUpd, hp, if_pos hlt] at he
        left; exact he
      · simp only [hitUpd, hp, if_neg hlt] at he
        right; exact he

theorem hitUpd_le (ray : Ray) (init : Option Intersect) (p : PrimitiveInstance)
    (h : Intersect) (he : hitUpd ray init p = some h) :
    (∀ nh, p.hit ray = some nh → h.fPositionOnRay ≤ nh.fPositionOnRay) ∧
    (∀ b, init = some b → h.fPositionOnRay ≤ b.fPositionOnRay) := by
  cases hp : p.hit ray with
  | none =>
    simp only [hitUpd, hp] at he
    constructor
    · intro nh hnh; cases hnh
    · intro b hb; rw [he] at hb; injection hb with hb; rw [hb]
  | some nh =>
    cases init with
    | none =>
      simp only [hitUpd, hp] at he
      injection he with he
      constructor
      · intro nh' hnh'; injection hnh' with hnh'; rw [← he, hnh']
      · intro b hb; cases hb
    | some b =>
      by_cases hlt : nh.fPositionOnRay < b.fPositionOnRay
      · simp only [hitUpd, hp, if_pos hlt] at he
        injection he with he
        constructor
        · intro nh' hnh'; injection hnh' with hnh'; rw [← he, hnh']
        · intro b' hb'; injection hb' with hb'
          rw [← he, ← hb']; exact le_of_lt hlt
      · simp only [hitUpd, hp, if_neg hlt] at he
        injection he with he
        constructor
        · intro nh' hnh'; injection hnh' with hnh'
          rw [← he, ← hnh']; exact le_of_not_lt hlt
        · intro b' hb'; injection hb' with hb'; rw [← he, ← hb']

theorem sceneFold_cons (ray : Ray) (p : PrimitiveInstance) (objs : List PrimitiveInstance)
    (init : Option Intersect) :
    sceneFold ray (p :: objs) init = sceneFold ray objs (hitUpd ray init p) := by
  simp [sceneFold]

theorem sceneFold_append (ray : Ray) (a b : List PrimitiveInstance) (init : Option Intersect) :
    sceneFold ray (a ++ b) init = sceneFold ray b (sceneFold ray a init) := by
  simp [sceneFold]

theorem hitsOf_cons (p : PrimitiveInstance) (objs : List PrimitiveInstance) (ray : Ray) :
    hitsOf (p :: objs) ray =
      match p.hit ray with
      | some nh => nh :: hitsOf objs ray
      | none => hitsOf objs ray := by
  unfold hitsOf
  cases hp : p.hit ray <;> simp [List.filterMap_cons, hp]

theorem sceneFold_isSome (ray : Ray) (objs : List PrimitiveInstance) :
    ∀ init, (sceneFold ray objs init).isSome
      = (init.isSome || objs.any fun p => (p.hit ray).isSome) := by
  induction objs with
  | nil => intro init; simp [sceneFold]
  | cons p rest ih =>
    intro init
    rw [sceneFold_cons, ih, hitUpd_isSome]
    simp [Bool.or_assoc]

theorem sceneFold_no_hits (ray : Ray) (objs : List PrimitiveInstance)
    (hnone : ∀ p ∈ objs, p.hit ray = none) :
    ∀ init, sceneFold ray objs init = init := by
  induction objs with
  | nil => intro init; simp [sceneFold]
  | cons p rest ih =>
    intro init
    rw [sceneFold_cons]
    have hp : p.hit ray = none := hnone p (by simp)
    have : hitUpd ray init p = init := by unfold hitUpd; rw [hp]
    rw [this]
    exact ih (fun q hq => hnone q (by simp [hq])) init

theorem sceneFold_mem (ray : Ray) (objs : List PrimitiveInstance) :
    ∀ init h, sceneFold ray objs init = some h → h ∈ hitsOf objs ray ∨ init = some h := by
  induction objs with
  | nil => intro init h he; right; simpa [sceneFold] using he
  | cons p rest ih =>
    intro init h he
    rw [sceneFold_cons] at he
    rcases ih (hitUpd ray init p) h he with hmem | hupd
    · left; rw [hitsOf_cons]; cases hp : p.hit ray <;> simp [hp] at hmem ⊢ <;> simp [hmem]
    · rcases hitUpd_eq_some ray init p h hupd with hph | hin
      · left; rw [hitsOf_cons, hph]; simp
      · right; exact hin

theorem sceneFold_min (ray : Ray) (objs : List PrimitiveInstance) :
    ∀ init h, sceneFold ray objs init = some h →
      (∀ g ∈ hitsOf objs ray, h.fPositionOnRay ≤ g.fPositionOnRay) ∧
      (∀ b, init = some b → h.fPositionOnRay ≤ b.fPositionOnRay) := by
  induction objs with
  | nil =>
    intro init h he
    refine ⟨by simp [hitsOf], fun b hb => ?_⟩
    simp [sceneFold] at he
    rw [he] at hb; injection hb with hb; rw [hb]
  | cons p rest ih =>
    intro init h he
    rw [sceneFold_cons] at he
    obtain ⟨hall, hinit⟩ := ih (hitUpd ray init p) h he
    have hparts : (∀ nh, p.hit ray = some nh → h.fPositionOnRay ≤ nh.fPositionOnRay) ∧
        (∀ b, init = some b → h.fPositionOnRay ≤ b.fPositionOnRay) := by
      cases hu : hitUpd ray init p with
      | none =>
        cases hp : p.hit ray with
        | none =>
          simp only [hitUpd, hp] at hu
          constructor
          · intro nh hnh; cases hnh
          · intro b hb; rw [hb] at hu; cases hu
        | some nh =>
          simp only [hitUpd, hp] at hu
          cases init with
          | none => cases hu
          | some b => by_cases hlt : nh.fPositionOnRay < b.fPositionOnRay <;>
              simp [hlt] at hu
      | some u =>
        have hle := hitUpd_le ray init p u hu
        have hu2 : h.fPositionOnRay ≤ u.fPositionOnRay := hinit u hu
        exact ⟨fun nh hnh => le_trans hu2 (hle.1 nh hnh),
               fun b hb => le_trans hu2 (hle.2 b hb)⟩
    refine ⟨fun g hg => ?_, hparts.2⟩
    rw [hitsOf_cons] at hg
    cases hp : p.hit ray with
    | none => simp only [hp] at hg; exact hall g hg
    | some nh =>
      simp only [hp] at hg
      rcases List.mem_cons.mp hg with hgn | hgr
      · rw [hgn]; exact hparts.1 nh hp
      · exact hall g hgr

/-! ### BVH pruning never changes the fold result -/

theorem bvh_pruned_fold (ray : Ray) (c : BvhNode) (hno : ¬ BvhAnyHit ray c)
    (b : Option Intersect) : sceneFold ray c.allPrims b = b := by
  apply sceneFold_no_hits
  intro p hp
  by_contra hne
  exact hno ⟨p, hp, Option.isSome_iff_ne_none.mpr hne⟩

theorem checkBvhHit_eq_fold (ray : Ray) {n : BvhNode} (hs : BvhSound ray n) :
    ∀ best, checkBvhHit ray n best = sceneFold ray n.allPrims best := by
  induction hs with
  | intro box prims l r hl hr sl sr ihl ihr =>
    intro best
    have hchild : ∀ (c : BvhNode), (BvhAnyHit ray c → c.boxTest ray = true) →
        (∀ b, checkBvhHit ray c b = sceneFold ray c.allPrims b) →
        ∀ b : Option Intersect,
        (if c.boxTest ray then checkBvhHit ray c b else b) = sceneFold ray c.allPrims b := by
      intro c hb ihc b
      by_cases ht : c.boxTest ray
      · rw [if_pos ht]; exact ihc b
      · rw [if_neg ht]
        have hno : ¬ BvhAnyHit ray c := fun hany => ht (hb hany)
        rw [bvh_pruned_fold ray c hno b]
    cases l with
    | none =>
      cases r with
      | none =>
        simp only [checkBvhHit, BvhNode.allPrims]
        rw [List.append_nil, List.append_nil]
      | some cr =>
        simp only [checkBvhHit, BvhNode.allPrims]
        rw [List.append_nil, sceneFold_append]
        rw [hchild cr (hr cr rfl) (ihr cr rfl)]
    | some cl =>
      cases r with
      | none =>
        simp only [checkBvhHit, BvhNode.allPrims]
        rw [List.append_nil, sceneFold_append]
        rw [hchild cl (hl cl rfl) (ihl cl rfl)]
      | some cr =>
        simp only [checkBvhHit, BvhNode.allPrims]
        rw [sceneFold_append, sceneFold_append]
        rw [hchild cl (hl cl rfl) (ihl cl rfl)]
        rw [hchild cr (hr cr rfl) (ihr cr rfl)]

theorem hitsOf_perm (ray : Ray) {a b : List PrimitiveInstance} (hp : a.Perm b) :
    (hitsOf a ray).Perm (hitsOf b ray) :=
  hp.filterMap _

/-- C1 (amended): For every scene and every ray, the BVH-accelerated
closest-hit query (`SimpleSceneBvh::hit` / `checkBvhHit`) and the reference
linear scan (`SimpleScene::hit`) agree on whether anything was hit and
report an identical position-on-ray `t` (exact rational arithmetic, so "up
to floating tolerance" becomes equality) — bounding-box pruning never
changes the result; and whenever a single primitive instance attains the
minimal `t`, the whole returned hit record — in particular the owning
primitive instance — is identical.  On an exact tie the strict-`<`
keep-first fold makes the reported instance depend on the enumeration
order, so the two queries may return different tying instances (see the
counterexample `bvh_hit_tie_differs`).  The hypotheses are the
(spec-modelled, `bvh.h` is not under `src/`) well-formedness of the built
BVH: conservative box tests and the tree holding exactly the scene's
instances. -/
theorem bvh_hit_matches_linear_hit (objs : List PrimitiveInstance) (root : BvhNode)
    (ray : Ray) (hsound : BvhSound ray root) (hperm : root.allPrims.Perm objs) :
    ((bvhHit root ray).isSome ↔ (simpleHit objs ray).isSome)
    ∧ (∀ hb hl, bvhHit root ray = some hb → simpleHit objs ray = some hl →
        hb.fPositionOnRay = hl.fPositionOnRay)
    ∧ ((∀ g1 g2, g1 ∈ hitsOf objs ray → g2 ∈ hitsOf objs ray →
          (∀ g ∈ hitsOf objs ray, g1.fPositionOnRay ≤ g.fPositionOnRay) →
          (∀ g ∈ hitsOf objs ray, g2.fPositionOnRay ≤ g.fPositionOnRay) → g1 = g2) →
        bvhHit root ray = simpleHit objs ray) := by
  have hb_eq : bvhHit root ray = sceneFold ray root.allPrims none :=
    checkBvhHit_eq_fold ray hsound none
  have hperm_hits := hitsOf_perm ray hperm
  have hA : (bvhHit root ray).isSome ↔ (simpleHit objs ray).isSome := by
    rw [hb_eq]
    unfold simpleHit
    rw [sceneFold_isSome, sceneFold_isSome]
    simp only [Option.isSome_none, Bool.false_or]
    rw [List.any_eq_true, List.any_eq_true]
    constructor
    · rintro ⟨p, hp, hps⟩; exact ⟨p, hperm.mem_iff.mp hp, hps⟩
    · rintro ⟨p, hp, hps⟩; exact ⟨p, hperm.mem_iff.mpr hp, hps⟩
  have hB : ∀ hb hl, bvhHit root ray = some hb → simpleHit objs ray = some hl →
      hb.fPositionOnRay = hl.fPositionOnRay := by
    intro hb hl hbe hle
    rw [hb_eq] at hbe
    unfold simpleHit at hle
    have hbmem : hb ∈ hitsOf root.allPrims ray := by
      rcases sceneFold_mem ray root.allPrims none hb hbe with hm | hc
      · exact hm
      · cases hc
    have hlmem : hl ∈ hitsOf objs ray := by
      rcases sceneFold_mem ray objs none hl hle with hm | hc
      · exact hm
      · cases hc
    have hminb := (sceneFold_min ray root.allPrims none hb hbe).1
    have hminl := (sceneFold_min ray objs none hl hle).1
    exact le_antisymm (hminb hl (hperm_hits.mem_iff.mpr hlmem))
      (hminl hb (hperm_hits.mem_iff.mp hbmem))
  refine ⟨hA, hB, ?_⟩
  intro huniq
  cases hbe : bvhHit root ray with
  | none =>
    cases hle : simpleHit objs ray with
    | none => rfl
    | some hl =>
      exfalso
      have := hA.mpr (by rw [hle]; simp)
      rw [hbe] at this; simp at this
  | some hb =>
    cases hle : simpleHit objs ray with
    | none =>
      exfalso
      have := hA.mp (by rw [hbe]; simp)
      rw [hle] at this; simp at this
    | some hl =>
      have hbe' := hbe; rw [hb_eq] at hbe'
      have hle' := hle; unfold simpleHit at hle'
      have hbmem : hb ∈ hitsOf objs ray := by
        rcases sceneFold_mem ray root.allPrims none hb hbe' with hm | hc
        · exact hperm_hits.mem_iff.mp hm
        · cases hc
      have hlmem : hl ∈ hitsOf objs ray := by
        rcases sceneFold_mem ray objs none hl hle' with hm | hc
        · exact hm
        · cases hc
      have hminb : ∀ g ∈ hitsOf objs ray, hb.fPositionOnRay ≤ g.fPositionOnRay := by
        intro g hg
        exact (sceneFold_min ray root.allPrims none hb hbe').1 g (hperm_hits.mem_iff.mpr hg)
      have hminl := (sceneFold_min ray objs none hl hle').1
      rw [huniq hb hl hbmem hlmem hminb hminl]

/-- C1 counterexample: two instances tie at `t = 1`; the BVH is a sound
one-leaf tree holding exactly the scene's two instances (its box test
accepts every ray, so nothing is pruned), but stores them in the opposite
order.  The linear scan returns the instance in registry slot 0 while the
BVH query returns the one in slot 1: same truthiness, same `t`, different
primitive instance — so the original claim's unconditional "same primitive
instance" fails. -/
theorem bvh_hit_tie_differs :
    BvhSound wRay0 cTree
    ∧ cTree.allPrims.Perm cObjs
    ∧ simpleHit cObjs wRay0 = some cHitA
    ∧ bvhHit cTree wRay0 = some cHitB
    ∧ cHitA.fPositionOnRay = cHitB.fPositionOnRay
    ∧ cHitA.pNode = some 0
    ∧ cHitB.pNode = some 1
    ∧ cHitA.pNode ≠ cHitB.pNode := by
  refine ⟨?_, ?_, ?_, ?_, rfl, rfl, rfl, by simp [cHitA, cHitB]⟩
  · exact BvhSound.intro _ _ _ _ (fun c hc => by cases hc) (fun c hc => by cases hc)
      (fun c hc => by cases hc) (fun c hc => by cases hc)
  · have hall : cTree.allPrims = [cPrimB, cPrimA] := by
      simp [cTree, BvhNode.allPrims]
    rw [hall]
    exact List.Perm.swap cPrimA cPrimB []
  · rfl
  · unfold bvhHit
    simp only [checkBvhHit]
    rfl

/-- Witness for C1 (amended) at a concrete one-instance scene and its
one-leaf BVH. -/
theorem bvh_hit_matches_linear_hit_witness :
    ((bvhHit wTree wRay0).isSome ↔ (simpleHit [wPrim] wRay0).isSome) ∧
    bvhHit wTree wRay0 = simpleHit [wPrim] wRay0 := by
  have hsound : BvhSound wRay0 wTree :=
    BvhSound.intro _ _ _ _ (fun c hc => by cases hc) (fun c hc => by cases hc)
      (fun c hc => by cases hc) (fun c hc => by cases hc)
  have hperm : wTree.allPrims.Perm [wPrim] := by
    simp [wTree, BvhNode.allPrims]
  have hthm := bvh_hit_matches_linear_hit [wPrim] wTree wRay0 hsound hperm
  refine ⟨hthm.1, hthm.2.2 ?_⟩
  intro g1 g2 hg1 hg2 hm1 hm2
  simp [hitsOf, wPrim] at hg1 hg2
  rw [hg1, hg2]

/-- C6: the linear-scan scene query returns the hit with minimal
position-on-ray `t` among all instances that report a hit — positive under
the (spec-modelled, the primitives' headers are not under `src/`)
primitive contract that reported hits carry a positive `t` — and the
returned record is truthy (`some`) iff some instance reports a hit. -/
theorem simpleHit_minimal_positive (objs : List PrimitiveInstance) (ray : Ray)
    (hpos : ∀ p ∈ objs, ∀ g, p.hit ray = some g → 0 < g.fPositionOnRay) :
    ((simpleHit objs ray).isSome ↔ ∃ p ∈ objs, (p.hit ray).isSome)
    ∧ ∀ h, simpleHit objs ray = some h →
        h ∈ hitsOf objs ray ∧ 0 < h.fPositionOnRay ∧
        ∀ g ∈ hitsOf objs ray, h.fPositionOnRay ≤ g.fPositionOnRay := by
  constructor
  · unfold simpleHit
    rw [sceneFold_isSome]
    simp only [Option.isSome_none, Bool.false_or]
    rw [List.any_eq_true]
  · intro h he
    unfold simpleHit at he
    have hmem : h ∈ hitsOf objs ray := by
      rcases sceneFold_mem ray objs none h he with hm | hc
      · exact hm
      · cases hc
    refine ⟨hmem, ?_, (sceneFold_min ray objs none h he).1⟩
    rcases List.mem_filterMap.mp hmem with ⟨p, hp, hph⟩
    exact hpos p hp h hph

/-- Witness for C6 at a concrete one-instance scene. -/
theorem simpleHit_minimal_positive_witness :
    ((simpleHit [wPrim] wRay0).isSome ↔ ∃ p ∈ [wPrim], (p.hit wRay0).isSome) ∧
    ∀ h, simpleHit [wPrim] wRay0 = some h →
        h ∈ hitsOf [wPrim] wRay0 ∧ 0 < h.fPositionOnRay ∧
        ∀ g ∈ hitsOf [wPrim] wRay0, h.fPositionOnRay ≤ g.fPositionOnRay := by
  apply simpleHit_minimal_positive
  intro p hp g hg
  simp [wPrim] at hp
  rw [hp] at hg
  simp [wPrim] at hg
  rw [← hg]
  norm_num [wHit]

/-! ### Unfolding equations for the tracer -/

theorem vec_add_def (a b : Vec) : a + b = ⟨a.x + b.x, a.y + b.y, a.z + b.z⟩ := rfl

theorem color_add_def (a b : Color) :
    a + b = ⟨a.red + b.red, a.green + b.green, a.blue + b.blue⟩ := rfl

theorem color_mul_def (a b : Color) :
    a * b = ⟨a.red * b.red, a.green * b.green, a.blue * b.blue⟩ := rfl

theorem qabs_eq_abs (q : ℚ) : qabs q = |q| := by
  unfold qabs
  rcases lt_or_le q 0 with h | h
  · rw [if_pos h, abs_of_neg h]
  · rw [if_neg (not_lt.mpr h), abs_of_nonneg h]

theorem isBlack_black : Color.black.isBlack = true := by
  simp only [Color.isBlack, Color.black]
  rw [decide_eq_true_eq]
  norm_num [qabs]

theorem isBlack_white : Color.isBlack ⟨1, 1, 1⟩ = false := by
  simp only [Color.isBlack]
  rw [decide_eq_false_iff_not]
  norm_num [qabs]

theorem traceRay_miss_eq (s : SceneM) (limit : Nat) (ray : Ray) (depth dm : Nat)
    (h : s.hit ray = none) :
    traceRay s limit ray depth dm = (s.missColor ray, depth + 1, max (depth + 1) dm) := by
  rw [traceRay]
  simp only [h]

theorem traceRay_null_eq (s : SceneM) (limit : Nat) (ray : Ray) (depth dm : Nat)
    (h : Intersect) (hh : s.hit ray = some h) (hn : h.pNode = none) :
    traceRay s limit ray depth dm = (s.missColor ray, depth + 1, max (depth + 1) dm) := by
  rw [traceRay]
  simp only [hh, hn]

theorem traceRay_stop_eq (s : SceneM) (limit : Nat) (ray : Ray) (depth dm : Nat)
    (h : Intersect) (nid : Nat) (hh : s.hit ray = some h) (hn : h.pNode = some nid)
    (hcond : ¬(depth + 1 < limit ∧ (scatterOf s nid h).color.isBlack = false)) :
    traceRay s limit ray depth dm
      = ((scatterOf s nid h).emitted, depth + 1, max (depth + 1) dm) := by
  rw [traceRay]
  simp only [hh, hn, scatterOf] at hcond ⊢
  rw [dif_neg hcond]

theorem traceRay_rec_eq (s : SceneM) (limit : Nat) (ray : Ray) (depth dm : Nat)
    (h : Intersect) (nid : Nat) (hh : s.hit ray = some h) (hn : h.pNode = some nid)
    (hcond : depth + 1 < limit ∧ (scatterOf s nid h).color.isBlack = false) :
    traceRay s limit ray depth dm
      = ((scatterOf s nid h).emitted
           + (scatterOf s nid h).color
             * (traceRay s limit (worldRay s nid h) (depth + 1) (max (depth + 1) dm)).1,
         (traceRay s limit (worldRay s nid h) (depth + 1) (max (depth + 1) dm)).2.1,
         (traceRay s limit (worldRay s nid h) (depth + 1) (max (depth + 1) dm)).2.2) := by
  rw [traceRay]
  simp only [scatterOf, worldRay] at hcond ⊢
  simp only [hh, hn]
  rw [dif_pos hcond]

/-- C2: at a closest hit (with a valid owning instance), if remaining trace
depth is available and the scattered attenuation is not (near-)zero, the
traced color is the scattered ray's emission plus the attenuation times the
recursively traced color of the epsilon-offset, world-transformed outgoing
ray; otherwise it is the emission alone (trace.h lines 45-81). -/
theorem trace_recursion_blend (s : SceneM) (limit : Nat) (ray : Ray) (depth dm : Nat)
    (h : Intersect) (nid : Nat) (hh : s.hit ray = some h) (hn : h.pNode = some nid) :
    (depth + 1 < limit ∧ (scatterOf s nid h).color.isBlack = false →
      (traceRay s limit ray depth dm).1
        = (scatterOf s nid h).emitted
          + (scatterOf s nid h).color
            * (traceRay s limit (worldRay s nid h) (depth + 1) (max (depth + 1) dm)).1)
    ∧ (¬(depth + 1 < limit ∧ (scatterOf s nid h).color.isBlack = false) →
      (traceRay s limit ray depth dm).1 = (scatterOf s nid h).emitted) := by
  constructor
  · intro hc
    rw [traceRay_rec_eq s limit ray depth dm h nid hh hn hc]
  · intro hc
    rw [traceRay_stop_eq s limit ray depth dm h nid hh hn hc]

/-- Witness for C2 at a concrete scene where the recursion fires. -/
theorem trace_recursion_blend_witness :
    (0 + 1 < 5 ∧ (scatterOf tScene 0 tHit).color.isBlack = false) ∧
    (traceRay tScene 5 tRay1 0 0).1
      = (scatterOf tScene 0 tHit).emitted
        + (scatterOf tScene 0 tHit).color
          * (traceRay tScene 5 (worldRay tScene 0 tHit) (0 + 1) (max (0 + 1) 0)).1 := by
  refine ⟨⟨by norm_num, isBlack_white⟩, ?_⟩
  exact (trace_recursion_blend tScene 5 tRay1 0 0 tHit 0 rfl rfl).1 ⟨by norm_num, isBlack_white⟩

/-- C3: a ray that intersects nothing traces to exactly the scene's
background/miss color, for every maximum trace depth and accumulated
depth-max state (trace.h line 80, `SimpleScene::backgroundColor`). -/
theorem trace_miss_background (s : SceneM) (limit dm : Nat) (ray : Ray)
    (hmiss : s.hit ray = none) :
    (Tracer.trace s limit dm ray).1 = s.missColor ray := by
  unfold Tracer.trace
  rw [traceRay_miss_eq s limit ray 0 dm hmiss]

/-- Witness for C3: the empty `SimpleScene` misses everywhere and traces to
its constant background color (0.2, 0.2, 0.2). -/
theorem trace_miss_background_witness :
    (simpleSceneM []).hit wRay0 = none ∧
    (Tracer.trace (simpleSceneM []) 9 0 wRay0).1 = simpleBackgroundColor :=
  ⟨rfl, trace_miss_background (simpleSceneM []) 9 0 wRay0 rfl⟩

/-- C4: a hit on a `Light` material traces to exactly the material's
emission — the base color scaled by the absolute dot product of the surface
normal and the incoming ray direction (for unit vectors, |cos| of their
angle) — regardless of the remaining depth budget, and the Light's
attenuation is always zero, so recursion stops at this hit
(default_materials.h lines 91-94, trace.h lines 61-76). -/
theorem light_hit_emission (s : SceneM) (limit : Nat) (ray : Ray) (depth dm : Nat)
    (h : Intersect) (nid : Nat) (c : Color)
    (hh : s.hit ray = some h) (hn : h.pNode = some nid)
    (hmat : (s.nodes nid).material = lightScatter c) :
    (traceRay s limit ray depth dm).1
      = c.scale (qabs (Vec.dot ((s.nodes nid).complete h).normal
          ((s.nodes nid).complete h).priRay.direction))
    ∧ ∀ g : Intersect, (lightScatter c g).color = Color.black := by
  have hsc : scatterOf s nid h = lightScatter c ((s.nodes nid).complete h) := by
    rw [scatterOf, hmat]
  have hcond : ¬(depth + 1 < limit ∧ (scatterOf s nid h).color.isBlack = false) := by
    rintro ⟨-, hb⟩
    rw [hsc] at hb
    simp only [lightScatter] at hb
    rw [isBlack_black] at hb
    cases hb
  constructor
  · rw [traceRay_stop_eq s limit ray depth dm h nid hh hn hcond, hsc]; rfl
  · intro g; rfl

/-- Witness for C4 at a concrete one-light scene with unit normal and
incoming direction aligned (|cos| = 1). -/
theorem light_hit_emission_witness :
    (traceRay lScene 7 wRay0 3 0).1
      = Color.scale ⟨10, 10, 10⟩ (qabs (Vec.dot ((lScene.nodes 0).complete lHit).normal
          ((lScene.nodes 0).complete lHit).priRay.direction))
    ∧ ∀ g : Intersect, (lightScatter ⟨10, 10, 10⟩ g).color = Color.black :=
  light_hit_emission lScene 7 wRay0 3 0 lHit 0 ⟨10, 10, 10⟩ rfl rfl rfl

/-- C10: when the scene reports a successful hit whose record carries a
null primitive-instance (node) pointer, the tracer returns the scene's
miss/background color without invoking any material (trace.h lines 49-81:
the `hit.m_pNode != nullptr` guard falls through to `missColor`). -/
theorem trace_null_node_miss (s : SceneM) (limit : Nat) (ray : Ray) (depth dm : Nat)
    (h : Intersect) (hh : s.hit ray = some h) (hn : h.pNode = none) :
    (traceRay s limit ray depth dm).1 = s.missColor ray := by
  rw [traceRay_null_eq s limit ray depth dm h hh hn]

/-- Witness for C10 at a concrete scene producing a null-node hit. -/
theorem trace_null_node_miss_witness :
    nScene.hit wRay0 = some nHit ∧ nHit.pNode = none ∧
    (traceRay nScene 4 wRay0 0 0).1 = simpleBackgroundColor :=
  ⟨rfl, rfl, trace_null_node_miss nScene 4 wRay0 0 0 nHit rfl rfl⟩

/-! ### The adaptive per-pixel sampling loop -/

theorem pixelIter_cases (N : Nat) (dm : Nat → Nat) (mat : Nat → ℚ) :
    ∀ fuel k, k + fuel = N →
      pixelIter N dm mat k fuel = N ∨
      (∃ j, pixelIter N dm mat k fuel = j + 1 ∧ j + 1 ≤ N ∧ 4 < j ∧ dm j < j ∧
        mat j < 1/1000000) := by
  intro fuel
  induction fuel with
  | zero =>
    intro k hk
    left
    simp only [pixelIter]
    omega
  | succ f ih =>
    intro k hk
    have hkN : k < N := by omega
    by_cases hex : 4 < k ∧ dm k < k ∧ mat k < 1/1000000
    · right
      refine ⟨k, ?_, by omega, hex.1, hex.2.1, hex.2.2⟩
      simp only [pixelIter]
      rw [if_pos hkN, if_pos hex]
    · have hstep : pixelIter N dm mat k (f + 1) = pixelIter N dm mat (k + 1) f := by
        simp only [pixelIter]
        rw [if_pos hkN, if_neg hex]
      rw [hstep]
      exact ih (k + 1) (by omega)

/-- C5: for every pixel, the number of samples `renderImage` traces is at
most the configured maximum `N` (`_iRaysPerPixel`) and at least
`min N 6` — the early-exit branch (`k > 4 && ...`) cannot fire before the
sixth sample; and sampling stops before the budget is exhausted only when
the last sample index exceeds the tracer's `traceDepthMax()` and the
statistic's maturity is below the hard-coded `1e-6` tolerance
(trace.h lines 109-121). -/
theorem sampleCount_bounds (N : Nat) (dm : Nat → Nat) (mat : Nat → ℚ) :
    sampleCount N dm mat ≤ N
    ∧ min N 6 ≤ sampleCount N dm mat
    ∧ (sampleCount N dm mat < N →
        6 ≤ sampleCount N dm mat
        ∧ dm (sampleCount N dm mat - 1) < sampleCount N dm mat - 1
        ∧ mat (sampleCount N dm mat - 1) < 1/1000000) := by
  have h := pixelIter_cases N dm mat N 0 (by omega)
  unfold sampleCount
  rcases h with he | ⟨j, hj, hle, h4, hdm, hmat⟩
  · rw [he]
    exact ⟨le_refl N, by omega, fun hlt => absurd hlt (lt_irrefl N)⟩
  · rw [hj]
    refine ⟨hle, by omega, fun _ => ⟨by omega, ?_, ?_⟩⟩
    · simpa using hdm
    · simpa using hmat

/-! ### Sphere marching -/

theorem marchLoop_hit_near (nrm : Vec → Vec) (sdf : Vec → ℚ) (dir : Vec) (inside0 : Bool) :
    ∀ fuel stepScale pt dist, dist = sdf pt →
      (marchLoop nrm sdf dir inside0 stepScale pt dist fuel).hit = true →
      qabs (sdf (marchLoop nrm sdf dir inside0 stepScale pt dist fuel).intersect)
        ≤ 1/1000000 := by
  intro fuel
  induction fuel with
  | zero =>
    intro ss pt dist hd hh
    simp [marchLoop] at hh
  | succ f ih =>
    intro ss pt dist hd hh
    by_cases h1 : 1000 < qabs dist
    · simp only [marchLoop, if_pos h1] at hh
      cases hh
    · by_cases h2 : qabs dist ≤ 1/1000000
      · simp only [marchLoop, if_neg h1, if_pos h2]
        rw [← hd]
        exact h2
      · simp only [marchLoop, if_neg h1, if_neg h2] at hh ⊢
        exact ih _ _ _ rfl hh

/-- C7: `marchedTrace` runs its loop for at most 1000 iterations (the
fixed fuel in the last conjunct) and is a total function — non-convergence
is a miss, never an error: exhausted fuel returns a miss with the current
point (first conjunct); a distance whose magnitude exceeds the
`MAX_DIST = 1000` bound returns a miss carrying the inside/outside state
recomputed from the sign of the distance (second conjunct); a distance
within the `1e-6` epsilon returns a hit at exactly the current point
(third conjunct); and any returned hit point satisfies
`|sdf point| ≤ 1e-6` (fourth conjunct, with the loop invariant
`dist = sdf pt` threaded from the entry point). -/
theorem marchedTrace_cap_and_eps (nrm : Vec → Vec) (sdf : Vec → ℚ) (dir : Vec)
    (inside0 : Bool) (stepScale dist : ℚ) (pt : Vec) (fuel : Nat) (ray : Ray) :
    (marchLoop nrm sdf dir inside0 stepScale pt dist 0
       = ⟨false, pt, ⟨0, 0, 0⟩, inside0⟩)
    ∧ (1000 < qabs dist →
        marchLoop nrm sdf dir inside0 stepScale pt dist (fuel + 1)
          = ⟨false, pt, ⟨0, 0, 0⟩, decide (dist < 0)⟩)
    ∧ (qabs dist ≤ 1/1000000 →
        marchLoop nrm sdf dir inside0 stepScale pt dist (fuel + 1)
          = ⟨true, pt, nrm (marchedGradient sdf pt), inside0⟩)
    ∧ (dist = sdf pt →
        (marchLoop nrm sdf dir inside0 stepScale pt dist fuel).hit = true →
        qabs (sdf (marchLoop nrm sdf dir inside0 stepScale pt dist fuel).intersect)
          ≤ 1/1000000)
    ∧ marchedTrace nrm sdf ray
        = marchLoop nrm sdf ray.direction (decide (sdf ray.origin < 0))
            (if sdf ray.origin < 0 then -1 else 1) ray.origin (sdf ray.origin) 1000 := by
  refine ⟨rfl, ?_, ?_, marchLoop_hit_near nrm sdf dir inside0 fuel stepScale pt dist, rfl⟩
  · intro h1
    simp only [marchLoop, if_pos h1]
  · intro h2
    have h1 : ¬ 1000 < qabs dist := by
      intro hc
      have : (1000 : ℚ) < 1/1000000 := lt_of_lt_of_le hc h2
      norm_num at this
    simp only [marchLoop, if_neg h1, if_pos h2]

/-- Witness for C7: a point far outside the max-distance bound of a plane
signed-distance function reports a miss in one step. -/
theorem marchedTrace_cap_and_eps_witness :
    (1000 < qabs 2000) ∧
    marchLoop (fun v => v) (fun p => p.x) ⟨1, 0, 0⟩ false 1 ⟨2000, 0, 0⟩ 2000 4
      = ⟨false, ⟨2000, 0, 0⟩, ⟨0, 0, 0⟩, decide ((2000 : ℚ) < 0)⟩ :=
  ⟨by norm_num [qabs],
   (marchedTrace_cap_and_eps (fun v => v) (fun p => p.x) ⟨1, 0, 0⟩ false 1 2000
     ⟨2000, 0, 0⟩ 3 wRay0).2.1 (by norm_num [qabs])⟩

/-! ### The trace-depth maximum is a running maximum, not per-ray -/

theorem traceRay_dm_decomp (s : SceneM) (limit : Nat) :
    ∀ gas ray depth dm, limit - depth ≤ gas →
      traceRay s limit ray depth dm
        = ((traceRay s limit ray depth 0).1, (traceRay s limit ray depth 0).2.1,
           max dm (traceRay s limit ray depth 0).2.2) := by
  intro gas
  induction gas with
  | zero =>
    intro ray depth dm hg
    have hnl : ¬ depth + 1 < limit := by omega
    cases hh : s.hit ray with
    | none =>
      rw [traceRay_miss_eq s limit ray depth dm hh, traceRay_miss_eq s limit ray depth 0 hh]
      simp only [Prod.mk.injEq, true_and]
      omega
    | some h =>
      cases hn : h.pNode with
      | none =>
        rw [traceRay_null_eq s limit ray depth dm h hh hn,
            traceRay_null_eq s limit ray depth 0 h hh hn]
        simp only [Prod.mk.injEq, true_and]
        omega
      | some nid =>
        have hcond : ¬(depth + 1 < limit ∧ (scatterOf s nid h).color.isBlack = false) :=
          fun hc => hnl hc.1
        rw [traceRay_stop_eq s limit ray depth dm h nid hh hn hcond,
            traceRay_stop_eq s limit ray depth 0 h nid hh hn hcond]
        simp only [Prod.mk.injEq, true_and]
        omega
  | succ g ih =>
    intro ray depth dm hg
    cases hh : s.hit ray with
    | none =>
      rw [traceRay_miss_eq s limit ray depth dm hh, traceRay_miss_eq s limit ray depth 0 hh]
      simp only [Prod.mk.injEq, true_and]
      omega
    | some h =>
      cases hn : h.pNode with
      | none =>
        rw [traceRay_null_eq s limit ray depth dm h hh hn,
            traceRay_null_eq s limit ray depth 0 h hh hn]
        simp only [Prod.mk.injEq, true_and]
        omega
      | some nid =>
        by_cases hcond : depth + 1 < limit ∧ (scatterOf s nid h).color.isBlack = false
        · have hgas : limit - (depth + 1) ≤ g := by omega
          rw [traceRay_rec_eq s limit ray depth dm h nid hh hn hcond,
              traceRay_rec_eq s limit ray depth 0 h nid hh hn hcond]
          rw [ih (worldRay s nid h) (depth + 1) (max (depth + 1) dm) hgas,
              ih (worldRay s nid h) (depth + 1) (max (depth + 1) 0) hgas]
          simp only [Prod.mk.injEq, true_and]
          omega
        · rw [traceRay_stop_eq s limit ray depth dm h nid hh hn hcond,
              traceRay_stop_eq s limit ray depth 0 h nid hh hn hcond]
          simp only [Prod.mk.injEq, true_and]
          omega

/-- C8 (amended): after `Tracer::trace` on a ray, `traceDepthMax()` equals
the maximum of its previous value and the maximum recursion depth reached
while tracing that ray; it is a running maximum over all rays traced by
the same `Tracer` since construction, never reset per ray (trace.h: only
`m_iTraceDepth` is reset in `trace`, `m_iTraceDepthMax` is not). -/
theorem trace_depthMax_running (s : SceneM) (limit dm : Nat) (ray : Ray) :
    (Tracer.trace s limit dm ray).2.2 = max dm ((Tracer.trace s limit 0 ray).2.2) := by
  unfold Tracer.trace
  rw [traceRay_dm_decomp s limit limit ray 0 dm (by omega)]

/-- C8 counterexample: trace `tRay1` (its chain reaches depth 2), then
`tRay2` (a miss, its chain reaches depth 1).  After the second `trace` the
tracer's `traceDepthMax()` is 2, while the maximum depth actually reached
while tracing `tRay2` is 1 — so `traceDepthMax()` is not tracked per
traced ray. -/
theorem trace_depthMax_not_per_ray :
    (Tracer.trace tScene 5 ((Tracer.trace tScene 5 0 tRay1).2.2) tRay2).2.2 = 2
    ∧ (Tracer.trace tScene 5 0 tRay2).2.2 = 1
    ∧ (Tracer.trace tScene 5 ((Tracer.trace tScene 5 0 tRay1).2.2) tRay2).2.2
        ≠ (Tracer.trace tScene 5 0 tRay2).2.2 := by
  have hhit1 : tScene.hit tRay1 = some tHit := by
    simp [tScene, tRay1]
  have hmiss2 : tScene.hit tRay2 = none := by
    simp only [tScene, tRay2]
    norm_num
  have hmissw : tScene.hit (worldRay tScene 0 tHit) = none := by
    simp only [tScene, worldRay, scatterOf, tPrim, tHit, Axis.id, Ray.position,
      vec_add_def, Vec.smul]
    norm_num
  have e1 : (Tracer.trace tScene 5 0 tRay1).2.2 = 2 := by
    unfold Tracer.trace
    rw [traceRay_rec_eq tScene 5 tRay1 0 0 tHit 0 hhit1 rfl ⟨by norm_num, isBlack_white⟩]
    rw [traceRay_miss_eq tScene 5 (worldRay tScene 0 tHit) (0 + 1) (max (0 + 1) 0) hmissw]
    dsimp only
    omega
  have e2 : (Tracer.trace tScene 5 0 tRay2).2.2 = 1 := by
    unfold Tracer.trace
    rw [traceRay_miss_eq tScene 5 tRay2 0 0 hmiss2]
    dsimp only
    omega
  have e3 : (Tracer.trace tScene 5 2 tRay2).2.2 = 2 := by
    unfold Tracer.trace
    rw [traceRay_miss_eq tScene 5 tRay2 0 2 hmiss2]
    dsimp only
    omega
  refine ⟨?_, e2, ?_⟩
  · rw [e1]; exact e3
  · rw [e1, e3, e2]; omega

/-! ### The checkered diffuse color -/

/-- C9 counterexample: at a hit with `u = -3/5`, `v = 0` and block size 2,
the C++ `(int)` truncation gives checker indices `-1` and `0`, and the C++
truncated `%` gives `(-1) % 2 = -1`, so `DiffuseCheckered::color` returns
`colorA·(-1) + colorB·2` — neither of the two configured colors. -/
theorem checkered_not_two_colors :
    diffuseCheckeredColor ⟨1, 0, 0⟩ ⟨0, 1, 0⟩ 2 uvHit ≠ ⟨1, 0, 0⟩
    ∧ diffuseCheckeredColor ⟨1, 0, 0⟩ ⟨0, 1, 0⟩ 2 uvHit ≠ ⟨0, 1, 0⟩ := by
  have h1 : cTrunc (uvHit.uv.u * (2 : ℤ)) = -1 := by
    show cTrunc ((-3/5 : ℚ) * ((2 : ℤ) : ℚ)) = -1
    rw [cTrunc, if_neg (by norm_num)]
    rw [Int.ceil_eq_iff]
    norm_num
  have h2 : cTrunc (uvHit.uv.v * (2 : ℤ)) = 0 := by
    show cTrunc ((0 : ℚ) * ((2 : ℤ) : ℚ)) = 0
    rw [cTrunc, if_pos (by norm_num)]
    norm_num
  have hval : diffuseCheckeredColor ⟨1, 0, 0⟩ ⟨0, 1, 0⟩ 2 uvHit = ⟨-1, 2, 0⟩ := by
    unfold diffuseCheckeredColor
    rw [h1, h2]
    have htm : ((-1 : ℤ) + 0).tmod 2 = -1 := by decide
    rw [htm]
    simp only [color_add_def, Color.scale]
    norm_num
  constructor
  · rw [hval]
    intro hcon
    have := congrArg Color.red hcon
    norm_num at this
  · rw [hval]
    intro hcon
    have := congrArg Color.red hcon
    norm_num at this

/-- C9 (amended): for every surface hit whose truncated checker index sum
`(int)(u·N) + (int)(v·N)` is nonnegative — in particular whenever the
hit's UV coordinates are nonnegative, as in the unit square —
`DiffuseCheckered::color` returns exactly one of the two configured
colors, chosen by the parity of the index sum: `colorA` when it is odd,
`colorB` when it is even.  (The nonnegativity restriction is what the
counterexample `checkered_not_two_colors`, an odd negative index sum,
forces; nothing is claimed for negative sums.) -/
theorem checkered_parity (cA cB : Color) (n : ℤ) (h : Intersect)
    (hnn : 0 ≤ cTrunc (h.uv.u * n) + cTrunc (h.uv.v * n)) :
    diffuseCheckeredColor cA cB n h
      = if (cTrunc (h.uv.u * n) + cTrunc (h.uv.v * n)) % 2 = 1 then cA else cB := by
  unfold diffuseCheckeredColor
  rw [Int.tmod_eq_emod hnn (by norm_num)]
  rcases Int.emod_two_eq_zero_or_one (cTrunc (h.uv.u * n) + cTrunc (h.uv.v * n)) with h0 | h1
  · rw [h0, if_neg (by decide : ¬((0 : ℤ) = 1))]
    simp only [color_add_def, Color.scale]
    cases cB
    norm_num
  · rw [h1, if_pos rfl]
    simp only [color_add_def, Color.scale]
    cases cA
    norm_num

/-- Witness for C9 (amended) at a hit with `u = 1/2`, `v = 0`, block size
2: index sum 1, odd parity, so `colorA` is returned. -/
theorem checkered_parity_witness :
    (0 ≤ cTrunc (uvHitPos.uv.u * (2 : ℤ)) + cTrunc (uvHitPos.uv.v * (2 : ℤ))) ∧
    diffuseCheckeredColor ⟨1, 0, 0⟩ ⟨0, 1, 0⟩ 2 uvHitPos
      = if (cTrunc (uvHitPos.uv.u * (2 : ℤ)) + cTrunc (uvHitPos.uv.v * (2 : ℤ))) % 2 = 1
        then (⟨1, 0, 0⟩ : Color) else ⟨0, 1, 0⟩ := by
  have hnn : 0 ≤ cTrunc (uvHitPos.uv.u * (2 : ℤ)) + cTrunc (uvHitPos.uv.v * (2 : ℤ)) := by
    have hu : cTrunc (uvHitPos.uv.u * (2 : ℤ)) = 1 := by
      show cTrunc ((1/2 : ℚ) * ((2 : ℤ) : ℚ)) = 1
      rw [cTrunc, if_pos (by norm_num)]
      norm_num
    have hv : cTrunc (uvHitPos.uv.v * (2 : ℤ)) = 0 := by
      show cTrunc ((0 : ℚ) * ((2 : ℤ) : ℚ)) = 0
      rw [cTrunc, if_pos (by norm_num)]
      norm_num
    rw [hu, hv]
    norm_num
  exact ⟨hnn, checkered_parity ⟨1, 0, 0⟩ ⟨0, 1, 0⟩ 2 uvHitPos hnn⟩

end LNF
